import Mathlib

/-!
Verification of the su router core (`src/servers/su/src/domain/core/router.rs`):
the scheduler registry and assignment data model, the bootstrap reconciliation
loop `init_schedulers`, and the three routing entry points
`redirect_process_id`, `redirect_tx_id` and `redirect_data_item`.

The engine is embedded shallowly: store state is threaded explicitly through a
`DataStore σ` capability record (the Rust code accesses the store through a
trait object), and the external collaborators that are not part of this
repository (the sha2 SHA-256 primitive, the base64_url codec, the data-item
envelope parser) are abstracted as an `Externals` record of functions.
-/

/-- A scheduler registry record (`struct Scheduler` in router.rs). -/
structure Scheduler where
  row_id : Option Int
  url : String
  process_count : Int
  no_route : Option Bool
  wallets_to_route : Option String
  wallets_only : Option Bool
  deriving DecidableEq, Repr

/-- An assignment record binding a process id to a scheduler
(`struct ProcessScheduler` in router.rs). -/
structure ProcessScheduler where
  row_id : Option Int
  process_id : String
  scheduler_row_id : Int
  deriving DecidableEq, Repr

/-- One entry of the declarative bootstrap list (`struct SchedulerEntry`
in router.rs). -/
structure SchedulerEntry where
  url : String
  no_route : Option Bool
  wallets_to_route : Option String
  wallets_only : Option Bool
  deriving DecidableEq, Repr

/-- Modelled from the spec: the store error type of the external data-access
layer (`StoreErrorType` in the dal module, which is outside src/). `NotFound`
is the distinguished variant the engine pattern-matches on; every other store
error is carried opaquely by the `Other` variant. -/
inductive StoreErrorType where
  | NotFound : String → StoreErrorType
  | Other : String → StoreErrorType
  deriving DecidableEq, Repr

/-- Modelled from the spec: the conversion of a store error into the engine's
`String` error type performed by the Rust `?` operator (the
`From StoreErrorType for String` impl lives outside src/). The error text is
propagated opaquely; the `NotFound` variant keeps a distinguishing prefix. -/
def storeErrStr : StoreErrorType → String
  | .NotFound m => "NotFound: " ++ m
  | .Other m => m

/-- A parsed name/value tag of a data item. -/
structure Tag where
  name : String
  value : String
  deriving DecidableEq, Repr

/-- Modelled from the spec: the structured fields the external envelope parser
(`Builder::parse_data_item`, outside src/) extracts from a binary payload. -/
structure DataItem where
  id : String
  target : String
  owner : String
  tags : List Tag
  deriving DecidableEq, Repr

/-- Modelled from the spec: the external collaborators of the engine that are
not part of this repository — the sha2 crate SHA-256 primitive, the
base64_url crate codec, and the data-item envelope parser — abstracted as
functions. Bytes are modelled as `List Nat`. -/
structure Externals where
  sha256 : List Nat → List Nat
  b64decode : String → Option (List Nat)
  b64encode : List Nat → String
  parse_data_item : List Nat → Except String DataItem

/-- The `hash` helper of router.rs: feed the data to a fresh SHA-256 hasher
and return the digest. -/
def hash (ext : Externals) (data : List Nat) : List Nat :=
  ext.sha256 data

/-- Modelled from the spec: the store contract (spec section 6) the engine is
polymorphic over. State of type `σ` is threaded explicitly; read operations
leave it untouched, `save` and `update` return the successor state. -/
structure DataStore (σ : Type) where
  get_scheduler_by_url : σ → String → Except StoreErrorType Scheduler
  save_scheduler : σ → Scheduler → Except StoreErrorType (Int × σ)
  update_scheduler : σ → Scheduler → Except StoreErrorType σ
  get_all_schedulers : σ → Except StoreErrorType (List Scheduler)
  get_scheduler : σ → Int → Except StoreErrorType Scheduler
  get_process_scheduler : σ → String → Except StoreErrorType ProcessScheduler
  save_process_scheduler : σ → ProcessScheduler → Except StoreErrorType σ

/-- The scheduler record the bootstrap loop creates for a missing entry:
`process_count = 0`, no store id yet, the entry's flags (router.rs lines
75–82). -/
def freshFor (entry : SchedulerEntry) : Scheduler :=
  { row_id := none, url := entry.url, process_count := 0,
    no_route := entry.no_route, wallets_to_route := entry.wallets_to_route,
    wallets_only := entry.wallets_only }

/-- Overwrite a record's `no_route`, `wallets_to_route` and `wallets_only`
fields with the entry's values (router.rs lines 92–95). -/
def setFlags (entry : SchedulerEntry) (sch : Scheduler) : Scheduler :=
  { sch with no_route := entry.no_route,
             wallets_to_route := entry.wallets_to_route,
             wallets_only := entry.wallets_only }

/-- The second half of one bootstrap iteration (router.rs lines 92–96): fetch
the record by url, overwrite its flags with the entry's values, persist. -/
def reconcileFlags {σ : Type} (ds : DataStore σ) (entry : SchedulerEntry)
    (s1 : σ) : Except String Unit × σ :=
  match ds.get_scheduler_by_url s1 entry.url with
  | .error e => (.error (storeErrStr e), s1)
  | .ok sched =>
    match ds.update_scheduler s1 (setFlags entry sched) with
    | .error e => (.error (storeErrStr e), s1)
    | .ok s2 => (.ok (), s2)

/-- One iteration of the bootstrap loop of `init_schedulers` (router.rs lines
71–97): if the existence check fails with `NotFound`, create the entry's
record; then — in any case — fetch the record by url and overwrite its flags.
The store state is returned alongside the outcome: a failing iteration keeps
the effects already performed. -/
def init_step {σ : Type} (ds : DataStore σ) (entry : SchedulerEntry) (s : σ) :
    Except String Unit × σ :=
  match ds.get_scheduler_by_url s entry.url with
  | .error (.NotFound _) =>
    match ds.save_scheduler s (freshFor entry) with
    | .error e => (.error (storeErrStr e), s)
    | .ok (_, s1) => reconcileFlags ds entry s1
  | _ => reconcileFlags ds entry s

/-- The bootstrap loader `init_schedulers` of router.rs, after the external
file read and JSON parse have produced the entry list: reconcile each entry
into the registry in order, aborting on the first store failure. (The Rust
function returns the constant string "schedulers initialized" on success;
here the unit value stands for it, and the store state is returned alongside
the outcome.) -/
def init_schedulers {σ : Type} (ds : DataStore σ) :
    List SchedulerEntry → σ → Except String Unit × σ
  | [], s => (.ok (), s)
  | e :: rest, s =>
    match init_step ds e s with
    | (.error msg, s1) => (.error msg, s1)
    | (.ok _, s1) => init_schedulers ds rest s1

/-- The assignment-then-scheduler lookup shared by `redirect_process_id` and
the tail of `redirect_tx_id`: fetch the process's assignment record, then the
referenced scheduler, propagating store errors through `storeErrStr`. -/
def lookupUrl {σ : Type} (ds : DataStore σ) (s : σ) (pid : String) :
    Except String String :=
  match ds.get_process_scheduler s pid with
  | .error e => .error (storeErrStr e)
  | .ok ps =>
    match ds.get_scheduler s ps.scheduler_row_id with
    | .error e => .error (storeErrStr e)
    | .ok sch => .ok sch.url

/-- `redirect_process_id` of router.rs: in router mode, resolve the (required)
process id through its assignment record to the scheduler's url. The result
pairs the Rust `Result<Option<String>, String>` with the store state, which
this entry point never changes. -/
def redirect_process_id {σ : Type} (ds : DataStore σ) (mode : String)
    (process_id : Option String) (s : σ) :
    Except String (Option String) × σ :=
  if mode ≠ "router" then (.ok none, s)
  else
    match process_id with
    | none => (.error "No process-id query parameter provided", s)
    | some pid =>
      match lookupUrl ds s pid with
      | .error e => (.error e, s)
      | .ok url => (.ok (some url), s)

/-- `redirect_tx_id` of router.rs: in router mode, first try the tx id itself
as a process id; if that lookup fails (with any store error), fall back to the
optional process-id parameter, failing with the instructional message when it
is absent; then resolve the chosen id as `redirect_process_id` does. -/
def redirect_tx_id {σ : Type} (ds : DataStore σ) (mode : String)
    (tx_id : String) (process_id : Option String) (s : σ) :
    Except String (Option String) × σ :=
  if mode ≠ "router" then (.ok none, s)
  else
    let process_to_query : Except String String :=
      match ds.get_process_scheduler s tx_id with
      | .ok _ => .ok tx_id
      | .error _ =>
        match process_id with
        | some pid => .ok pid
        | none => .error "Unable to locate process, if this is a message id query be sure to pass the process-id query parameter"
    match process_to_query with
    | .error e => (.error e, s)
    | .ok p =>
      match lookupUrl ds s p with
      | .error e => (.error e, s)
      | .ok url => (.ok (some url), s)

/-- Rust `str::split(',')`: the (possibly empty) segments between commas,
over the character list of the string. -/
def splitComma : List Char → List (List Char)
  | [] => [[]]
  | c :: cs =>
    if c = ',' then [] :: splitComma cs
    else
      match splitComma cs with
      | [] => [[c]]
      | seg :: rest => (c :: seg) :: rest

/-- Rust `str::trim`: drop leading and trailing whitespace characters (the
ASCII whitespace subset suffices for the addresses routed here). -/
def trimChars (cs : List Char) : List Char :=
  ((cs.dropWhile Char.isWhitespace).reverse.dropWhile Char.isWhitespace).reverse

/-- Does this scheduler's comma-separated `wallets_to_route` list (each value
trimmed of surrounding whitespace) contain the derived owner address?
(router.rs lines 212–218.) -/
def walletMatch (owner_address : String) (sch : Scheduler) : Bool :=
  match sch.wallets_to_route with
  | some w =>
    ((splitComma w.toList).map (fun cs => String.mk (trimChars cs))).contains owner_address
  | none => false

/-- The affinity scan of the "Process" branch (router.rs lines 211–247): the
first scheduler in registry order whose wallet list matches the owner
address. -/
def findAffinity (owner_address : String) (l : List Scheduler) :
    Option Scheduler :=
  l.find? (walletMatch owner_address)

/-- Rust's `Iterator::min_by_key` on `process_count`: the minimum of the list,
with ties broken in favour of the first element encountered (router.rs line
251). -/
def minByLoad (l : List Scheduler) : Option Scheduler :=
  match l with
  | [] => none
  | x :: xs =>
    some (xs.foldl (fun m sch => if sch.process_count < m.process_count then sch else m) x)

/-- The shared assignment tail of both selection paths of the "Process" branch
(router.rs lines 218–241 and 251–273): increment the chosen scheduler's
`process_count`, persist it with `update_scheduler`, then — only after that
update — require the scheduler's store id, create the `ProcessScheduler`
assignment record, and return the scheduler's url. -/
def assignTo {σ : Type} (ds : DataStore σ) (s : σ) (sch : Scheduler)
    (pid : String) : Except String (Option String) × σ :=
  let sch1 := { sch with process_count := sch.process_count + 1 }
  match ds.update_scheduler s sch1 with
  | .error e => (.error (storeErrStr e), s)
  | .ok s1 =>
    match sch1.row_id with
    | none => (.error "Missing id on scheduler", s1)
    | some rid =>
      let ps : ProcessScheduler :=
        { row_id := none, process_id := pid, scheduler_row_id := rid }
      match ds.save_process_scheduler s1 ps with
      | .error e => (.error (storeErrStr e), s1)
      | .ok s2 => (.ok (some sch1.url), s2)

/-- The "Process" branch of `redirect_data_item` (router.rs lines 193–277):
fetch all schedulers, drop those with `no_route`, scan for an affinity match
and assign to it if found; otherwise drop `wallets_only` schedulers and assign
to the least-loaded remaining one, failing when the pool is empty. -/
def processBranch {σ : Type} (ds : DataStore σ) (s : σ)
    (owner_address : String) (pid : String) :
    Except String (Option String) × σ :=
  match ds.get_all_schedulers s with
  | .error e => (.error (storeErrStr e), s)
  | .ok all =>
    let schedulers := all.filter (fun sch => sch.no_route.getD false == false)
    match findAffinity owner_address schedulers with
    | some sch => assignTo ds s sch pid
    | none =>
      let pool := schedulers.filter (fun sch => sch.wallets_only.getD false == false)
      match minByLoad pool with
      | some m => assignTo ds s m pid
      | none => (.error "Could not find a scheduler to assign", s)

/-- `redirect_data_item` of router.rs: in router mode, reject a lone
process-id/assign parameter; with both present, resolve the process id's
existing assignment without touching the payload; otherwise parse the payload,
find its `Type`/`type` tag, derive the owner address (base64url decode,
SHA-256, base64url encode) and dispatch on the tag value: "Process" runs the
selection branch, "Message" resolves the target's existing assignment, and
anything else is an invalid Type Tag. -/
def redirect_data_item {σ : Type} (ds : DataStore σ) (ext : Externals)
    (mode : String) (input : List Nat) (process_id : Option String)
    (assign : Option String) (s : σ) :
    Except String (Option String) × σ :=
  if mode ≠ "router" then (.ok none, s)
  else if Bool.xor process_id.isSome assign.isSome then
    (.error "If sending assign or process-id, you must send both.", s)
  else
    match process_id, assign with
    | some pid, some _ =>
      (match ds.get_process_scheduler s pid with
      | .ok ps =>
        match ds.get_scheduler s ps.scheduler_row_id with
        | .error e => (.error (storeErrStr e), s)
        | .ok sch => (.ok (some sch.url), s)
      | .error _ => (.error "Unable to locate scheduler for process-id", s))
    | _, _ =>
      match ext.parse_data_item input with
      | .error e => (.error e, s)
      | .ok item =>
        match item.tags.find? (fun tag => tag.name == "Type" || tag.name == "type") with
        | none => (.error "Cannot redirect data item, invalid Type Tag", s)
        | some type_tag =>
          match ext.b64decode item.owner with
          | none => (.error "Failed to parse owner", s)
          | some owner_bytes =>
            let owner_address := ext.b64encode (hash ext owner_bytes)
            if type_tag.value == "Process" then
              processBranch ds s owner_address item.id
            else if type_tag.value == "Message" then
              (match ds.get_process_scheduler s item.target with
              | .ok ps =>
                match ds.get_scheduler s ps.scheduler_row_id with
                | .error e => (.error (storeErrStr e), s)
                | .ok sch => (.ok (some sch.url), s)
              | .error _ => (.error "Unable to locate scheduler for message target", s))
            else (.error "Cannot redirect data item, invalid Type Tag", s)

/-- The state of the in-memory store: the scheduler registry and the
assignment table, in insertion order, plus the fresh-id counters. -/
structure MemState where
  schedulers : List Scheduler
  process_schedulers : List ProcessScheduler
  next_sched_id : Int
  next_ps_id : Int
  deriving DecidableEq, Repr

/-- Replace the first scheduler whose `row_id` is `some i` with `r`. -/
def replaceSched (i : Int) (r : Scheduler) : List Scheduler → List Scheduler
  | [] => []
  | x :: xs => if x.row_id = some i then r :: xs else x :: replaceSched i r xs

/-- Modelled from the spec: the in-memory store satisfying the section-6
contract, used to instantiate the engine. -/
def memStore : DataStore MemState where
  get_scheduler_by_url s url :=
    match s.schedulers.find? (fun sch => sch.url == url) with
    | some sch => .ok sch
    | none => .error (.NotFound "scheduler not found")
  save_scheduler s sch :=
    .ok (s.next_sched_id,
      { s with schedulers := s.schedulers ++ [{ sch with row_id := some s.next_sched_id }],
               next_sched_id := s.next_sched_id + 1 })
  update_scheduler s sch :=
    match sch.row_id with
    | none => .error (.Other "update on scheduler without id")
    | some i =>
      if s.schedulers.any (fun x => x.row_id == some i) then
        .ok { s with schedulers := replaceSched i sch s.schedulers }
      else .error (.NotFound "scheduler not found")
  get_all_schedulers s := .ok s.schedulers
  get_scheduler s i :=
    match s.schedulers.find? (fun sch => sch.row_id == some i) with
    | some sch => .ok sch
    | none => .error (.NotFound "scheduler not found")
  get_process_scheduler s pid :=
    match s.process_schedulers.find? (fun ps => ps.process_id == pid) with
    | some ps => .ok ps
    | none => .error (.NotFound "process scheduler not found")
  save_process_scheduler s ps :=
    .ok { s with process_schedulers := s.process_schedulers ++ [{ ps with row_id := some s.next_ps_id }],
                 next_ps_id := s.next_ps_id + 1 }

/-- The empty store state. -/
def memState0 : MemState :=
  { schedulers := [], process_schedulers := [], next_sched_id := 1, next_ps_id := 1 }

/-- A concrete instantiation of the external collaborators, used to evaluate
the engine on closed inputs. -/
def extDefault : Externals where
  sha256 bs := bs
  b64decode _ := some []
  b64encode _ := ""
  parse_data_item _ := .error "could not parse data item"

/-- The element is the first minimum of the list: it occurs in the list, every
element strictly before it carries a strictly larger load, and no element at
all carries a smaller load. -/
def isFirstMin (m : Scheduler) (l : List Scheduler) : Prop :=
  ∃ l1 l2, l = l1 ++ m :: l2 ∧ (∀ x ∈ l1, m.process_count < x.process_count) ∧
    ∀ x ∈ l, m.process_count ≤ x.process_count

/-- Registry well-formedness of the in-memory store: every scheduler carries a
store id below the fresh-id counter, and both the ids and the urls are
duplicate-free. -/
def WFreg (s : MemState) : Prop :=
  (∀ sch ∈ s.schedulers, sch.row_id.isSome = true ∧ sch.row_id.getD 0 < s.next_sched_id) ∧
  (s.schedulers.map (fun sch => sch.row_id)).Nodup ∧
  (s.schedulers.map (fun sch => sch.url)).Nodup

/-- The effect of one bootstrap iteration on the in-memory store: overwrite
the flags of the entry's record, creating the record first when its url is
absent. -/
def bootStep (entry : SchedulerEntry) (s : MemState) : MemState :=
  match s.schedulers.find? (fun sch => sch.url == entry.url) with
  | some sched =>
    { s with schedulers :=
        replaceSched (sched.row_id.getD 0) (setFlags entry sched) s.schedulers }
  | none =>
    { s with
      schedulers := s.schedulers ++ [{ freshFor entry with row_id := some s.next_sched_id }],
      next_sched_id := s.next_sched_id + 1 }

/-- The effect of the whole bootstrap run on the in-memory store. -/
def bootRun : List SchedulerEntry → MemState → MemState
  | [], s => s
  | e :: rest, s => bootRun rest (bootStep e s)

/-- The entry's record exists in the registry and carries the entry's
flags. -/
def reconciled (e : SchedulerEntry) (s : MemState) : Prop :=
  ∃ sch ∈ s.schedulers, sch.url = e.url ∧ sch.no_route = e.no_route ∧
    sch.wallets_to_route = e.wallets_to_route ∧ sch.wallets_only = e.wallets_only

/-- First bootstrap entry of the C6 scenario. -/
def entry1 : SchedulerEntry :=
  { url := "https://b1", no_route := none, wallets_to_route := none,
    wallets_only := none }

/-- Second bootstrap entry of the C6 scenario, with every flag set. -/
def entry2 : SchedulerEntry :=
  { url := "https://b2", no_route := some true, wallets_to_route := some "W",
    wallets_only := some false }

/-- The registry produced by bootstrapping the C6 list into the empty
store. -/
def s12 : MemState :=
  { schedulers :=
      [{ row_id := some 1, url := "https://b1", process_count := 0,
         no_route := none, wallets_to_route := none, wallets_only := none },
       { row_id := some 2, url := "https://b2", process_count := 0,
         no_route := some true, wallets_to_route := some "W",
         wallets_only := some false }],
    process_schedulers := [], next_sched_id := 3, next_ps_id := 1 }

/-- What sticky routing needs an operation to preserve: every assignment
lookup that succeeds keeps returning the very same record, and the scheduler
a record references keeps its url. -/
def Preserves (s s' : MemState) : Prop :=
  (∀ X r, memStore.get_process_scheduler s X = .ok r →
    memStore.get_process_scheduler s' X = .ok r) ∧
  (∀ i sch, memStore.get_scheduler s i = .ok sch →
    ∃ sch', memStore.get_scheduler s' i = .ok sch' ∧ sch'.url = sch.url)

/-- One call of any engine operation through the in-memory store, relating
the store state before the call to the state after it. -/
inductive EngineStep : MemState → MemState → Prop where
  | boot (entries : List SchedulerEntry) (res : Except String Unit)
      (s s' : MemState) :
      init_schedulers memStore entries s = (res, s') → EngineStep s s'
  | byPid (mode : String) (pid : Option String)
      (res : Except String (Option String)) (s s' : MemState) :
      redirect_process_id memStore mode pid s = (res, s') → EngineStep s s'
  | byTx (mode tx : String) (pid : Option String)
      (res : Except String (Option String)) (s s' : MemState) :
      redirect_tx_id memStore mode tx pid s = (res, s') → EngineStep s s'
  | byItem (ext : Externals) (mode : String) (input : List Nat)
      (pid a : Option String) (res : Except String (Option String))
      (s s' : MemState) :
      redirect_data_item memStore ext mode input pid a s = (res, s') →
      EngineStep s s'

/-- The scheduler of the C2 scenario. -/
def schedS : Scheduler :=
  { row_id := some 1, url := "https://st", process_count := 1,
    no_route := none, wallets_to_route := none, wallets_only := none }

/-- The C2 start state: process "px" is assigned to the scheduler. -/
def sSticky : MemState :=
  { schedulers := [schedS],
    process_schedulers := [{ row_id := some 1, process_id := "px", scheduler_row_id := 1 }],
    next_sched_id := 2, next_ps_id := 2 }

/-- Concrete externals for the C2 scenario: a fresh "Process" payload for a
different process "py". -/
def extSticky : Externals where
  sha256 bs := bs
  b64decode _ := some [1]
  b64encode _ := "B"
  parse_data_item _ :=
    .ok { id := "py", target := "", owner := "ow",
          tags := [{ name := "Type", value := "Process" }] }

/-- The C2 state after routing "py": the scheduler's load grew and a second
assignment exists, the assignment of "px" untouched. -/
def sStickyAfter : MemState :=
  { schedulers := [{ schedS with process_count := 2 }],
    process_schedulers :=
      [{ row_id := some 1, process_id := "px", scheduler_row_id := 1 },
       { row_id := some 2, process_id := "py", scheduler_row_id := 1 }],
    next_sched_id := 2, next_ps_id := 3 }

/-- First scheduler of the C1 scenario: load 3. -/
def schedA : Scheduler :=
  { row_id := some 1, url := "https://s1", process_count := 3,
    no_route := none, wallets_to_route := none, wallets_only := none }

/-- Second scheduler of the C1 scenario: load 1, first of the tie. -/
def schedB : Scheduler :=
  { row_id := some 2, url := "https://s2", process_count := 1,
    no_route := none, wallets_to_route := none, wallets_only := none }

/-- Third scheduler of the C1 scenario: load 1, second of the tie. -/
def schedC : Scheduler :=
  { row_id := some 3, url := "https://s3", process_count := 1,
    no_route := none, wallets_to_route := none, wallets_only := none }

/-- The C1 registry: three eligible schedulers with loads [3, 1, 1]. -/
def s311 : MemState :=
  { schedulers := [schedA, schedB, schedC], process_schedulers := [],
    next_sched_id := 4, next_ps_id := 1 }

/-- Concrete externals whose parser yields a "Process" item owned by an owner
whose derived address is "ADDR". -/
def extProc : Externals where
  sha256 bs := bs
  b64decode _ := some [1]
  b64encode _ := "ADDR"
  parse_data_item _ :=
    .ok { id := "proc1", target := "", owner := "ow",
          tags := [{ name := "Type", value := "Process" }] }

/-- The C1 registry after routing the "Process" payload: the second scheduler
carries load 2 and owns the new assignment. -/
def s311assigned : MemState :=
  { schedulers := [schedA, { schedB with process_count := 2 }, schedC],
    process_schedulers := [{ row_id := some 1, process_id := "proc1", scheduler_row_id := 2 }],
    next_sched_id := 4, next_ps_id := 2 }

/-- Least-loaded scheduler of the C3 scenario: load 0, no affinity list. -/
def schedP : Scheduler :=
  { row_id := some 1, url := "https://p", process_count := 0,
    no_route := none, wallets_to_route := none, wallets_only := none }

/-- Affinity scheduler of the C3 scenario: load 7, lists the owner address
"AFF" (with surrounding whitespace, exercising the trimming). -/
def schedQ : Scheduler :=
  { row_id := some 2, url := "https://q", process_count := 7,
    no_route := none, wallets_to_route := some "x, AFF", wallets_only := none }

/-- The C3 registry: the affinity scheduler is far from least-loaded. -/
def sPQ : MemState :=
  { schedulers := [schedP, schedQ], process_schedulers := [],
    next_sched_id := 3, next_ps_id := 1 }

/-- The parsed payload of the C3 scenario. -/
def itemAff : DataItem :=
  { id := "p4", target := "", owner := "ow",
    tags := [{ name := "Type", value := "Process" }] }

/-- Concrete externals for the C3 scenario: the derived owner address is
"AFF". -/
def extAff : Externals where
  sha256 bs := bs
  b64decode _ := some [1]
  b64encode _ := "AFF"
  parse_data_item _ := .ok itemAff

/-- The C3 registry after routing: the affinity scheduler carries load 8 and
owns the new assignment. -/
def sPQafter : MemState :=
  { schedulers := [schedP, { schedQ with process_count := 8 }],
    process_schedulers := [{ row_id := some 1, process_id := "p4", scheduler_row_id := 2 }],
    next_sched_id := 3, next_ps_id := 2 }

/-- The `wallets_only` scheduler of the C4 scenario: load 0, no owner list. -/
def schedW : Scheduler :=
  { row_id := some 1, url := "https://w", process_count := 0,
    no_route := none, wallets_to_route := none, wallets_only := some true }

/-- The ordinary scheduler of the C4 scenario: load 5. -/
def schedX : Scheduler :=
  { row_id := some 2, url := "https://x", process_count := 5,
    no_route := none, wallets_to_route := none, wallets_only := none }

/-- The C4 registry: the idle scheduler is `wallets_only`, the loaded one is
not. -/
def sW : MemState :=
  { schedulers := [schedW, schedX], process_schedulers := [],
    next_sched_id := 3, next_ps_id := 1 }

/-- The C4 registry after routing: the load-5 scheduler got the assignment,
the idle `wallets_only` one was skipped. -/
def sWafter : MemState :=
  { schedulers := [schedW, { schedX with process_count := 6 }],
    process_schedulers := [{ row_id := some 1, process_id := "p2", scheduler_row_id := 2 }],
    next_sched_id := 3, next_ps_id := 2 }

/-- A registry holding only the `wallets_only` scheduler: the candidate pool
is empty. -/
def sOnlyW : MemState :=
  { schedulers := [schedW], process_schedulers := [],
    next_sched_id := 2, next_ps_id := 1 }

/-- A store like `memStore` whose `update_scheduler` also accepts a record
without a store id, by appending it to the registry; it exercises the
defensive missing-id branch of the engine, which is unreachable through
`memStore`. -/
def permStore : DataStore MemState :=
  { memStore with
    update_scheduler := fun s sch =>
      .ok { s with schedulers := s.schedulers ++ [sch] } }

/-- The id-less scheduler of the C10 scenario. -/
def schedN : Scheduler :=
  { row_id := none, url := "https://n", process_count := 0,
    no_route := none, wallets_to_route := none, wallets_only := none }

/-- The C10 registry: a single scheduler lacking its store id. -/
def sN : MemState :=
  { schedulers := [schedN], process_schedulers := [],
    next_sched_id := 1, next_ps_id := 1 }

/-- Concrete externals for the C10 scenario. -/
def extN : Externals where
  sha256 bs := bs
  b64decode _ := some [1]
  b64encode _ := "A"
  parse_data_item _ :=
    .ok { id := "p3", target := "", owner := "ow",
          tags := [{ name := "Type", value := "Process" }] }

/-- The C10 post-update state: the incremented count is persisted (by
`permStore`'s append-on-update), no assignment record exists. -/
def sN1 : MemState :=
  { schedulers := [schedN, { schedN with process_count := 1 }],
    process_schedulers := [], next_sched_id := 1, next_ps_id := 1 }

/-- A store whose every operation fails with the same non-NotFound error:
used to observe how the engine treats store errors other than `NotFound`. -/
def badStore : DataStore Unit where
  get_scheduler_by_url _ _ := .error (.Other "store connection failure")
  save_scheduler _ _ := .error (.Other "store connection failure")
  update_scheduler _ _ := .error (.Other "store connection failure")
  get_all_schedulers _ := .error (.Other "store connection failure")
  get_scheduler _ _ := .error (.Other "store connection failure")
  get_process_scheduler _ _ := .error (.Other "store connection failure")
  save_process_scheduler _ _ := .error (.Other "store connection failure")

/-- Concrete externals whose parser yields a "Message" item targeting the
process "pt". -/
def extMsg : Externals where
  sha256 bs := bs
  b64decode _ := some [1]
  b64encode _ := "A"
  parse_data_item _ :=
    .ok { id := "m1", target := "pt", owner := "ow",
          tags := [{ name := "Type", value := "Message" }] }

/-- The bootstrap entry of the C9 amended witness. -/
def entryU : SchedulerEntry :=
  { url := "https://u", no_route := none, wallets_to_route := none,
    wallets_only := none }

/-- The registry state after saving the C9 entry's fresh record into the
empty store. -/
def sUsaved : MemState :=
  { schedulers := [{ freshFor entryU with row_id := some 1 }],
    process_schedulers := [], next_sched_id := 2, next_ps_id := 1 }

/-! ## Theorems -/

/-- A successful `find?` splits its list at the found element, and nothing
before the element satisfies the predicate. -/
theorem find?_split {α : Type} (p : α → Bool) (l : List α) (a : α)
    (h : l.find? p = some a) :
    ∃ l1 l2, l = l1 ++ a :: l2 ∧ p a = true ∧ ∀ x ∈ l1, p x = false := by
  induction l with
  | nil => simp at h
  | cons x xs ih =>
    by_cases hp : p x
    · rw [List.find?_cons_of_pos _ hp] at h
      obtain rfl : x = a := by injection h
      exact ⟨[], xs, rfl, hp, by simp⟩
    · rw [List.find?_cons_of_neg _ hp] at h
      obtain ⟨l1, l2, heq, hpa, hbefore⟩ := ih h
      refine ⟨x :: l1, l2, by simp [heq], hpa, ?_⟩
      intro y hy
      rcases List.mem_cons.mp hy with rfl | hy'
      · exact Bool.eq_false_iff.mpr hp
      · exact hbefore y hy'

/-- The fold underlying `minByLoad` computes the first minimum of
`a :: xs`. -/
theorem foldl_min_isFirstMin (a : Scheduler) (xs : List Scheduler) :
    isFirstMin
      (xs.foldl (fun m sch => if sch.process_count < m.process_count then sch else m) a)
      (a :: xs) := by
  induction xs using List.reverseRecOn with
  | nil => exact ⟨[], [], rfl, by simp, by simp⟩
  | append_singleton ys y ih =>
    rw [List.foldl_append]
    simp only [List.foldl_cons, List.foldl_nil]
    obtain ⟨l1, l2, heq, hlt, hle⟩ := ih
    by_cases hy :
        y.process_count <
          (ys.foldl (fun m sch => if sch.process_count < m.process_count then sch else m) a).process_count
    · rw [if_pos hy]
      refine ⟨a :: ys, [], by simp, ?_, ?_⟩
      · intro x hx
        exact lt_of_lt_of_le hy (hle x hx)
      · intro x hx
        rw [show a :: (ys ++ [y]) = (a :: ys) ++ [y] by simp] at hx
        rcases List.mem_append.mp hx with hx' | hx'
        · exact le_of_lt (lt_of_lt_of_le hy (hle x hx'))
        · simp at hx'
          subst hx'
          exact le_refl _
    · rw [if_neg hy]
      refine ⟨l1, l2 ++ [y], ?_, hlt, ?_⟩
      · rw [show a :: (ys ++ [y]) = (a :: ys) ++ [y] by simp, heq]
        simp
      · intro x hx
        rw [show a :: (ys ++ [y]) = (a :: ys) ++ [y] by simp] at hx
        rcases List.mem_append.mp hx with hx' | hx'
        · exact hle x hx'
        · simp at hx'
          subst hx'
          exact le_of_not_lt hy

/-- `minByLoad` returns the first minimum of its list. -/
theorem minByLoad_isFirstMin (l : List Scheduler) (m : Scheduler)
    (h : minByLoad l = some m) : isFirstMin m l := by
  cases l with
  | nil => simp [minByLoad] at h
  | cons x xs =>
    have hx : xs.foldl (fun m sch => if sch.process_count < m.process_count then sch else m) x = m := by
      simpa [minByLoad] using h
    exact hx ▸ foldl_min_isFirstMin x xs

/-- A scheduler returned by `minByLoad` is a member of the list. -/
theorem minByLoad_mem (l : List Scheduler) (m : Scheduler)
    (h : minByLoad l = some m) : m ∈ l := by
  obtain ⟨l1, l2, heq, -, -⟩ := minByLoad_isFirstMin l m h
  subst heq
  simp

/-- `replaceSched` is the identity on a list without the id. -/
theorem replaceSched_of_not_mem (i : Int) (r : Scheduler) (l : List Scheduler)
    (h : ∀ x ∈ l, x.row_id ≠ some i) : replaceSched i r l = l := by
  induction l with
  | nil => rfl
  | cons x xs ih =>
    rw [replaceSched, if_neg (h x (by simp))]
    rw [ih (fun y hy => h y (by simp [hy]))]

/-- `replaceSched` distributes to the right part when the left part misses the
id. -/
theorem replaceSched_append_right (i : Int) (r : Scheduler) (l1 l2 : List Scheduler)
    (h : ∀ x ∈ l1, x.row_id ≠ some i) :
    replaceSched i r (l1 ++ l2) = l1 ++ replaceSched i r l2 := by
  induction l1 with
  | nil => rfl
  | cons x xs ih =>
    rw [List.cons_append, replaceSched, if_neg (h x (by simp))]
    rw [ih (fun y hy => h y (by simp [hy]))]
    rfl

/-- With duplicate-free ids, `replaceSched` replaces exactly the member
carrying the id, and the members before it miss the id. -/
theorem replaceSched_split (i : Int) (r sch : Scheduler) (l : List Scheduler)
    (hnd : (l.map (fun x => x.row_id)).Nodup) (hmem : sch ∈ l)
    (hi : sch.row_id = some i) :
    ∃ l1 l2, l = l1 ++ sch :: l2 ∧ replaceSched i r l = l1 ++ r :: l2 ∧
      ∀ x ∈ l1, x.row_id ≠ some i := by
  induction l with
  | nil => simp at hmem
  | cons x xs ih =>
    by_cases hx : x.row_id = some i
    · have hxsch : x = sch := by
        rcases List.mem_cons.mp hmem with rfl | hmem'
        · rfl
        · exfalso
          have : x.row_id ∈ xs.map (fun y => y.row_id) :=
            hx ▸ hi ▸ List.mem_map_of_mem _ hmem'
          exact (List.nodup_cons.mp hnd).1 this
      refine ⟨[], xs, by simp [hxsch], ?_, by simp⟩
      rw [replaceSched, if_pos hx]
      simp
    · have hmem' : sch ∈ xs := by
        rcases List.mem_cons.mp hmem with rfl | hmem'
        · exact absurd hi hx
        · exact hmem'
      obtain ⟨l1, l2, heq, hrepl, hmiss⟩ := ih (List.nodup_cons.mp hnd).2 hmem'
      refine ⟨x :: l1, l2, by simp [heq], ?_, ?_⟩
      · rw [replaceSched, if_neg hx, hrepl]
        rfl
      · intro y hy
        rcases List.mem_cons.mp hy with rfl | hy'
        · exact hx
        · exact hmiss y hy'

/-- With duplicate-free ids, replacing a member by itself is the identity. -/
theorem replaceSched_self (i : Int) (sch : Scheduler) (l : List Scheduler)
    (hnd : (l.map (fun x => x.row_id)).Nodup) (hmem : sch ∈ l)
    (hi : sch.row_id = some i) : replaceSched i sch l = l := by
  obtain ⟨l1, l2, heq, hrepl, -⟩ := replaceSched_split i sch sch l hnd hmem hi
  rw [hrepl, heq]

/-- With duplicate-free urls, `find?` by url returns any member carrying the
url. -/
theorem find?_url_unique (u : String) (sch : Scheduler) (l : List Scheduler)
    (hnd : (l.map (fun x => x.url)).Nodup) (hmem : sch ∈ l) (hu : sch.url = u) :
    l.find? (fun x => x.url == u) = some sch := by
  induction l with
  | nil => simp at hmem
  | cons x xs ih =>
    by_cases hx : x.url = u
    · have hxsch : x = sch := by
        rcases List.mem_cons.mp hmem with rfl | hmem'
        · rfl
        · exfalso
          have : x.url ∈ xs.map (fun y => y.url) :=
            hx ▸ hu ▸ List.mem_map_of_mem _ hmem'
          exact (List.nodup_cons.mp hnd).1 this
      rw [List.find?_cons_of_pos _ (by simp [hx])]
      rw [hxsch]
    · have hmem' : sch ∈ xs := by
        rcases List.mem_cons.mp hmem with rfl | hmem'
        · exact absurd hu hx
        · exact hmem'
      rw [List.find?_cons_of_neg _ (by simp [hx])]
      exact ih (List.nodup_cons.mp hnd).2 hmem'

/-- Overwriting flags that already carry the entry's values changes
nothing. -/
theorem setFlags_self (e : SchedulerEntry) (sch : Scheduler)
    (h1 : sch.no_route = e.no_route) (h2 : sch.wallets_to_route = e.wallets_to_route)
    (h3 : sch.wallets_only = e.wallets_only) : setFlags e sch = sch := by
  cases sch
  simp_all [setFlags]

/-- Through the in-memory store, the flag-reconciliation half of a bootstrap
iteration replaces the found record by its flag-overwritten copy. -/
theorem reconcileFlags_memStore (entry : SchedulerEntry) (s : MemState)
    (sched : Scheduler) (i : Int)
    (hfind : s.schedulers.find? (fun sch => sch.url == entry.url) = some sched)
    (hi : sched.row_id = some i) :
    reconcileFlags memStore entry s =
      (.ok (), { s with schedulers := replaceSched i (setFlags entry sched) s.schedulers }) := by
  have hmem : sched ∈ s.schedulers := List.mem_of_find?_eq_some hfind
  have hany : s.schedulers.any (fun x => x.row_id == some i) = true :=
    List.any_eq_true.mpr ⟨sched, hmem, by simp [hi]⟩
  have hrow : (setFlags entry sched).row_id = some i := hi
  simp only [reconcileFlags, memStore, hfind, hrow, hany]
  simp

/-- Under a well-formed registry, one bootstrap iteration through the
in-memory store succeeds and acts as `bootStep`. -/
theorem init_step_memStore (entry : SchedulerEntry) (s : MemState)
    (hwf : WFreg s) :
    init_step memStore entry s = (.ok (), bootStep entry s) := by
  obtain ⟨hids, hndid, hndurl⟩ := hwf
  cases hfind : s.schedulers.find? (fun sch => sch.url == entry.url) with
  | some sched =>
    obtain ⟨hsome, -⟩ := hids sched (List.mem_of_find?_eq_some hfind)
    obtain ⟨i, hi⟩ := Option.isSome_iff_exists.mp hsome
    have hstep : init_step memStore entry s = reconcileFlags memStore entry s := by
      simp only [init_step, memStore, hfind]
    rw [hstep, reconcileFlags_memStore entry s sched i hfind hi]
    simp [bootStep, hfind, hi]
  | none =>
    have hmiss : ∀ x ∈ s.schedulers, x.row_id ≠ some s.next_sched_id := by
      intro x hx
      obtain ⟨hsome, hlt⟩ := hids x hx
      obtain ⟨j, hj⟩ := Option.isSome_iff_exists.mp hsome
      rw [hj]
      intro hcontra
      injection hcontra with hji
      rw [hj, hji] at hlt
      simp at hlt
    have hstep : init_step memStore entry s =
        reconcileFlags memStore entry
          { s with
            schedulers := s.schedulers ++ [{ freshFor entry with row_id := some s.next_sched_id }],
            next_sched_id := s.next_sched_id + 1 } := by
      simp only [init_step, memStore, hfind]
    have hfindA :
        (s.schedulers ++ [{ freshFor entry with row_id := some s.next_sched_id }]).find?
          (fun sch => sch.url == entry.url) =
        some { freshFor entry with row_id := some s.next_sched_id } := by
      rw [List.find?_append, hfind]
      simp [freshFor]
    have hrecon := reconcileFlags_memStore entry
      { s with
        schedulers := s.schedulers ++ [{ freshFor entry with row_id := some s.next_sched_id }],
        next_sched_id := s.next_sched_id + 1 }
      { freshFor entry with row_id := some s.next_sched_id } s.next_sched_id hfindA rfl
    rw [hstep, hrecon]
    have hrepl :
        replaceSched s.next_sched_id
          (setFlags entry { freshFor entry with row_id := some s.next_sched_id })
          (s.schedulers ++ [{ freshFor entry with row_id := some s.next_sched_id }]) =
        s.schedulers ++ [{ freshFor entry with row_id := some s.next_sched_id }] := by
      rw [replaceSched_append_right _ _ _ _ hmiss]
      rw [replaceSched]
      simp [setFlags, freshFor]
    rw [hrepl]
    simp [bootStep, hfind]

/-- One bootstrap step preserves registry well-formedness. -/
theorem bootStep_WF (entry : SchedulerEntry) (s : MemState) (hwf : WFreg s) :
    WFreg (bootStep entry s) := by
  obtain ⟨hids, hndid, hndurl⟩ := hwf
  cases hfind : s.schedulers.find? (fun sch => sch.url == entry.url) with
  | some sched =>
    have hmem := List.mem_of_find?_eq_some hfind
    obtain ⟨hsome, hlt⟩ := hids sched hmem
    obtain ⟨i, hi⟩ := Option.isSome_iff_exists.mp hsome
    obtain ⟨l1, l2, heq, hrepl, -⟩ :=
      replaceSched_split i (setFlags entry sched) sched s.schedulers hndid hmem hi
    have hstate : bootStep entry s = { s with schedulers := l1 ++ setFlags entry sched :: l2 } := by
      simp only [bootStep, hfind, hi, Option.getD_some]
      rw [hrepl]
    rw [hstate]
    rw [heq] at hids hndid hndurl
    refine ⟨?_, ?_, ?_⟩
    · intro x hx
      rcases List.mem_append.mp hx with hx1 | hx2
      · exact hids x (List.mem_append.mpr (Or.inl hx1))
      · rcases List.mem_cons.mp hx2 with rfl | hx3
        · exact hids sched (List.mem_append.mpr (Or.inr (List.mem_cons_self _ _)))
        · exact hids x (List.mem_append.mpr (Or.inr (List.mem_cons_of_mem _ hx3)))
    · have hmapeq : (l1 ++ setFlags entry sched :: l2).map (fun x => x.row_id) =
          (l1 ++ sched :: l2).map (fun x => x.row_id) := by
        simp [setFlags]
      rw [hmapeq]
      exact hndid
    · have hmapeq : (l1 ++ setFlags entry sched :: l2).map (fun x => x.url) =
          (l1 ++ sched :: l2).map (fun x => x.url) := by
        simp [setFlags]
      rw [hmapeq]
      exact hndurl
  | none =>
    have hstate : bootStep entry s =
        { s with
          schedulers := s.schedulers ++ [{ freshFor entry with row_id := some s.next_sched_id }],
          next_sched_id := s.next_sched_id + 1 } := by
      simp only [bootStep, hfind]
    rw [hstate]
    have hnourl : ∀ x ∈ s.schedulers, x.url ≠ entry.url := by
      intro x hx
      have hne := List.find?_eq_none.mp hfind x hx
      simpa using hne
    refine ⟨?_, ?_, ?_⟩
    · intro x hx
      rcases List.mem_append.mp hx with hx1 | hx2
      · obtain ⟨hsome, hlt⟩ := hids x hx1
        exact ⟨hsome, lt_trans hlt (by simp)⟩
      · simp at hx2
        subst hx2
        exact ⟨rfl, by simp⟩
    · rw [List.map_append]
      rw [List.nodup_append]
      refine ⟨hndid, by simp, ?_⟩
      intro a ha hb
      simp at hb
      obtain ⟨x, hx, hax⟩ := List.mem_map.mp ha
      obtain ⟨hsome, hlt⟩ := hids x hx
      obtain ⟨j, hj⟩ := Option.isSome_iff_exists.mp hsome
      rw [← hax, hj] at hb
      injection hb with hb'
      rw [hj, hb'] at hlt
      simp at hlt
    · rw [List.map_append]
      rw [List.nodup_append]
      refine ⟨hndurl, by simp, ?_⟩
      intro a ha hb
      simp [freshFor] at hb
      obtain ⟨x, hx, hax⟩ := List.mem_map.mp ha
      exact hnourl x hx (hax.trans hb)

/-- The whole bootstrap run preserves registry well-formedness. -/
theorem bootRun_WF (entries : List SchedulerEntry) (s : MemState)
    (hwf : WFreg s) : WFreg (bootRun entries s) := by
  induction entries generalizing s with
  | nil => exact hwf
  | cons e rest ih => exact ih (bootStep e s) (bootStep_WF e s hwf)

/-- Under a well-formed registry, the bootstrap loader through the in-memory
store succeeds and acts as `bootRun`. -/
theorem init_schedulers_memStore (entries : List SchedulerEntry)
    (s : MemState) (hwf : WFreg s) :
    init_schedulers memStore entries s = (.ok (), bootRun entries s) := by
  induction entries generalizing s with
  | nil => rfl
  | cons e rest ih =>
    rw [init_schedulers, init_step_memStore e s hwf]
    exact ih (bootStep e s) (bootStep_WF e s hwf)

/-- A bootstrap step for an already-reconciled entry changes nothing. -/
theorem bootStep_of_reconciled (e : SchedulerEntry) (s : MemState)
    (hwf : WFreg s) (hrec : reconciled e s) : bootStep e s = s := by
  obtain ⟨hids, hndid, hndurl⟩ := hwf
  obtain ⟨sch, hmem, hu, h1, h2, h3⟩ := hrec
  have hfind := find?_url_unique e.url sch s.schedulers hndurl hmem hu
  obtain ⟨hsome, -⟩ := hids sch hmem
  obtain ⟨i, hi⟩ := Option.isSome_iff_exists.mp hsome
  have hself : setFlags e sch = sch := setFlags_self e sch h1 h2 h3
  simp only [bootStep, hfind, hi, Option.getD_some, hself]
  rw [replaceSched_self i sch s.schedulers hndid hmem hi]

/-- A bootstrap step reconciles its own entry. -/
theorem bootStep_reconciles (e : SchedulerEntry) (s : MemState)
    (hwf : WFreg s) : reconciled e (bootStep e s) := by
  obtain ⟨hids, hndid, hndurl⟩ := hwf
  cases hfind : s.schedulers.find? (fun sch => sch.url == e.url) with
  | some sched =>
    have hmem := List.mem_of_find?_eq_some hfind
    have hu : sched.url = e.url := by
      have := List.find?_some hfind
      simpa using this
    obtain ⟨hsome, -⟩ := hids sched hmem
    obtain ⟨i, hi⟩ := Option.isSome_iff_exists.mp hsome
    obtain ⟨l1, l2, heq, hrepl, -⟩ :=
      replaceSched_split i (setFlags e sched) sched s.schedulers hndid hmem hi
    refine ⟨setFlags e sched, ?_, by simp [setFlags, hu], rfl, rfl, rfl⟩
    simp only [bootStep, hfind, hi, Option.getD_some, hrepl]
    simp
  | none =>
    refine ⟨{ freshFor e with row_id := some s.next_sched_id }, ?_, rfl, rfl, rfl, rfl⟩
    simp [bootStep, hfind]

/-- A bootstrap step for a different url preserves reconciliation. -/
theorem bootStep_preserves_reconciled (e f : SchedulerEntry) (s : MemState)
    (hwf : WFreg s) (hrec : reconciled f s) (hne : e.url ≠ f.url) :
    reconciled f (bootStep e s) := by
  obtain ⟨hids, hndid, hndurl⟩ := hwf
  obtain ⟨sch, hmem, hu, h1, h2, h3⟩ := hrec
  cases hfind : s.schedulers.find? (fun sch => sch.url == e.url) with
  | some sched =>
    have hue : sched.url = e.url := by
      have := List.find?_some hfind
      simpa using this
    obtain ⟨hsome, -⟩ := hids sched (List.mem_of_find?_eq_some hfind)
    obtain ⟨i, hi⟩ := Option.isSome_iff_exists.mp hsome
    obtain ⟨l1, l2, heq, hrepl, -⟩ :=
      replaceSched_split i (setFlags e sched) sched s.schedulers hndid
        (List.mem_of_find?_eq_some hfind) hi
    refine ⟨sch, ?_, hu, h1, h2, h3⟩
    simp only [bootStep, hfind, hi, Option.getD_some, hrepl]
    have hschne : sch ≠ sched := by
      intro hcontra
      exact hne (by rw [← hue, ← hcontra, hu])
    rw [heq] at hmem
    rcases List.mem_append.mp hmem with hx1 | hx2
    · exact List.mem_append.mpr (Or.inl hx1)
    · rcases List.mem_cons.mp hx2 with rfl | hx3
      · exact absurd rfl hschne
      · exact List.mem_append.mpr (Or.inr (List.mem_cons_of_mem _ hx3))
  | none =>
    refine ⟨sch, ?_, hu, h1, h2, h3⟩
    simp only [bootStep, hfind]
    exact List.mem_append.mpr (Or.inl hmem)

/-- A bootstrap run whose entries all miss a url preserves that url's
reconciliation. -/
theorem bootRun_preserves_reconciled (entries : List SchedulerEntry)
    (f : SchedulerEntry) (s : MemState) (hwf : WFreg s)
    (hrec : reconciled f s) (hne : ∀ e ∈ entries, e.url ≠ f.url) :
    reconciled f (bootRun entries s) := by
  induction entries generalizing s with
  | nil => exact hrec
  | cons e rest ih =>
    exact ih (bootStep e s) (bootStep_WF e s hwf)
      (bootStep_preserves_reconciled e f s hwf hrec (hne e (by simp)))
      (fun g hg => hne g (by simp [hg]))

/-- After a bootstrap run over duplicate-free urls, every entry is
reconciled. -/
theorem bootRun_reconciled (entries : List SchedulerEntry) (s : MemState)
    (hwf : WFreg s) (hnd : (entries.map (fun e => e.url)).Nodup) :
    ∀ e ∈ entries, reconciled e (bootRun entries s) := by
  induction entries generalizing s with
  | nil => simp
  | cons e rest ih =>
    intro f hf
    rcases List.mem_cons.mp hf with rfl | hf'
    · rw [bootRun]
      refine bootRun_preserves_reconciled rest f (bootStep f s)
        (bootStep_WF f s hwf) (bootStep_reconciles f s hwf) ?_
      intro g hg
      intro hcontra
      have : f.url ∈ rest.map (fun x => x.url) := by
        rw [← hcontra]
        exact List.mem_map_of_mem _ hg
      exact (List.nodup_cons.mp (by simpa using hnd)).1 this
    · exact ih (bootStep e s) (bootStep_WF e s hwf)
        (List.nodup_cons.mp (by simpa using hnd)).2 f hf'

/-- A bootstrap run over reconciled entries is the identity. -/
theorem bootRun_of_reconciled (entries : List SchedulerEntry) (s : MemState)
    (hwf : WFreg s) (hrec : ∀ e ∈ entries, reconciled e s) :
    bootRun entries s = s := by
  induction entries with
  | nil => rfl
  | cons e rest ih =>
    rw [bootRun, bootStep_of_reconciled e s hwf (hrec e (by simp))]
    exact ih (fun f hf => hrec f (by simp [hf]))

/-- A bootstrap step keeps every present record's id, url and load. -/
theorem bootStep_count (e : SchedulerEntry) (s : MemState) (hwf : WFreg s)
    (sch0 : Scheduler) (hmem0 : sch0 ∈ s.schedulers) :
    ∃ sch1 ∈ (bootStep e s).schedulers, sch1.row_id = sch0.row_id ∧
      sch1.url = sch0.url ∧ sch1.process_count = sch0.process_count := by
  obtain ⟨hids, hndid, hndurl⟩ := hwf
  cases hfind : s.schedulers.find? (fun sch => sch.url == e.url) with
  | some sched =>
    obtain ⟨hsome, -⟩ := hids sched (List.mem_of_find?_eq_some hfind)
    obtain ⟨i, hi⟩ := Option.isSome_iff_exists.mp hsome
    obtain ⟨l1, l2, heq, hrepl, -⟩ :=
      replaceSched_split i (setFlags e sched) sched s.schedulers hndid
        (List.mem_of_find?_eq_some hfind) hi
    have hstate : (bootStep e s).schedulers = l1 ++ setFlags e sched :: l2 := by
      simp only [bootStep, hfind, hi, Option.getD_some, hrepl]
    rw [hstate]
    rw [heq] at hmem0
    rcases List.mem_append.mp hmem0 with hx1 | hx2
    · exact ⟨sch0, List.mem_append.mpr (Or.inl hx1), rfl, rfl, rfl⟩
    · rcases List.mem_cons.mp hx2 with rfl | hx3
      · exact ⟨setFlags e sch0,
          List.mem_append.mpr (Or.inr (List.mem_cons_self _ _)), rfl, rfl, rfl⟩
      · exact ⟨sch0, List.mem_append.mpr (Or.inr (List.mem_cons_of_mem _ hx3)), rfl, rfl, rfl⟩
  | none =>
    refine ⟨sch0, ?_, rfl, rfl, rfl⟩
    simp only [bootStep, hfind]
    exact List.mem_append.mpr (Or.inl hmem0)

/-- A bootstrap run keeps every present record's id, url and load. -/
theorem bootRun_count (entries : List SchedulerEntry) (s : MemState)
    (hwf : WFreg s) (sch0 : Scheduler) (hmem0 : sch0 ∈ s.schedulers) :
    ∃ sch1 ∈ (bootRun entries s).schedulers, sch1.row_id = sch0.row_id ∧
      sch1.url = sch0.url ∧ sch1.process_count = sch0.process_count := by
  induction entries generalizing s sch0 with
  | nil => exact ⟨sch0, hmem0, rfl, rfl, rfl⟩
  | cons e rest ih =>
    obtain ⟨sch1, hmem1, h1, h2, h3⟩ := bootStep_count e s hwf sch0 hmem0
    obtain ⟨sch2, hmem2, g1, g2, g3⟩ :=
      ih (bootStep e s) (bootStep_WF e s hwf) sch1 hmem1
    exact ⟨sch2, hmem2, g1.trans h1, g2.trans h2, g3.trans h3⟩

/-- C6: re-running the bootstrap loader with the same declarative list is a
no-op. From a well-formed registry `s0`, a successful run with a
duplicate-free-url list to `s1` means: the second run with the same list
succeeds and yields `s1` itself; `s1` holds at most one record per url; every
listed entry's record in `s1` carries exactly the list's flags; and no run
resets or alters any scheduler's `load_count` — every record of `s0` keeps
its id, url and `process_count` in `s1`, and the second run leaves `s1`
untouched. -/
theorem bootstrap_idempotent (entries : List SchedulerEntry)
    (s0 s1 : MemState) (hwf : WFreg s0)
    (hnd : (entries.map (fun e => e.url)).Nodup)
    (hrun : init_schedulers memStore entries s0 = (.ok (), s1)) :
    init_schedulers memStore entries s1 = (.ok (), s1) ∧
    (s1.schedulers.map (fun sch => sch.url)).Nodup ∧
    (∀ e ∈ entries, ∃ sch ∈ s1.schedulers, sch.url = e.url ∧
      sch.no_route = e.no_route ∧ sch.wallets_to_route = e.wallets_to_route ∧
      sch.wallets_only = e.wallets_only) ∧
    (∀ sch ∈ s0.schedulers, ∃ sch1 ∈ s1.schedulers,
      sch1.row_id = sch.row_id ∧ sch1.url = sch.url ∧
      sch1.process_count = sch.process_count) := by
  have hsim := init_schedulers_memStore entries s0 hwf
  rw [hrun] at hsim
  injection hsim with h1 h2
  subst h2
  have hwf1 : WFreg (bootRun entries s0) := bootRun_WF entries s0 hwf
  refine ⟨?_, hwf1.2.2, ?_, ?_⟩
  · rw [init_schedulers_memStore entries _ hwf1,
      bootRun_of_reconciled entries _ hwf1 (bootRun_reconciled entries s0 hwf hnd)]
  · intro e he
    exact bootRun_reconciled entries s0 hwf hnd e he
  · intro sch hmem
    exact bootRun_count entries s0 hwf sch hmem

/-- Witness for C6: bootstrapping the two-entry list twice from the empty
store ends in the same registry as bootstrapping it once, and the second
entry's flags are reflected verbatim. -/
theorem bootstrap_idempotent_witness :
    init_schedulers memStore [entry1, entry2] s12 = (.ok (), s12) ∧
    (∃ sch ∈ s12.schedulers, sch.url = entry2.url ∧
      sch.no_route = entry2.no_route ∧
      sch.wallets_to_route = entry2.wallets_to_route ∧
      sch.wallets_only = entry2.wallets_only) := by
  have h := bootstrap_idempotent [entry1, entry2] memState0 s12
    (by simp [WFreg, memState0]) (by decide) rfl
  exact ⟨h.1, h.2.2.1 entry2 (by simp)⟩

/-- `Preserves` is reflexive. -/
theorem Preserves_refl (s : MemState) : Preserves s s :=
  ⟨fun _ _ h => h, fun _ sch h => ⟨sch, h, rfl⟩⟩

/-- `Preserves` composes. -/
theorem Preserves_trans {a b c : MemState} (hab : Preserves a b)
    (hbc : Preserves b c) : Preserves a c := by
  obtain ⟨h1, h2⟩ := hab
  obtain ⟨g1, g2⟩ := hbc
  refine ⟨fun X r h => g1 X r (h1 X r h), fun i sch h => ?_⟩
  obtain ⟨sch1, hb, hu⟩ := h2 i sch h
  obtain ⟨sch2, hc, hu2⟩ := g2 i sch1 hb
  exact ⟨sch2, hc, hu2.trans hu⟩

/-- An assignment lookup through the in-memory store is a `find?` on the
assignment table. -/
theorem get_ps_ok (s : MemState) (X : String) (r : ProcessScheduler) :
    memStore.get_process_scheduler s X = .ok r ↔
    s.process_schedulers.find? (fun ps => ps.process_id == X) = some r := by
  simp only [memStore]
  cases s.process_schedulers.find? (fun ps => ps.process_id == X) <;> simp

/-- A scheduler lookup through the in-memory store is a `find?` on the
registry. -/
theorem get_sched_ok (s : MemState) (i : Int) (sch : Scheduler) :
    memStore.get_scheduler s i = .ok sch ↔
    s.schedulers.find? (fun x => x.row_id == some i) = some sch := by
  simp only [memStore]
  cases s.schedulers.find? (fun x => x.row_id == some i) <;> simp

/-- A successful `find?` survives appending on the right. -/
theorem find?_append_left {α : Type} (p : α → Bool) (l tail : List α) (x : α)
    (h : l.find? p = some x) : (l ++ tail).find? p = some x := by
  rw [List.find?_append, h]
  rfl

/-- Replacing a record by one with the same id and url leaves every
id-lookup's url unchanged. -/
theorem find?_row_id_stable (l1 l2 : List Scheduler) (sched r : Scheduler)
    (hr : r.row_id = sched.row_id) (hu : r.url = sched.url) (i : Int)
    (schF : Scheduler)
    (h : (l1 ++ sched :: l2).find? (fun x => x.row_id == some i) = some schF) :
    ∃ schF', (l1 ++ r :: l2).find? (fun x => x.row_id == some i) = some schF' ∧
      schF'.url = schF.url := by
  rw [List.find?_append] at h ⊢
  cases h1 : l1.find? (fun x => x.row_id == some i) with
  | some x =>
    rw [h1] at h
    simp only [Option.or_some] at h ⊢
    exact ⟨schF, h, rfl⟩
  | none =>
    rw [h1] at h
    simp only [Option.none_or] at h ⊢
    by_cases hp : (sched.row_id == some i) = true
    · rw [@List.find?_cons_of_pos Scheduler (fun x => x.row_id == some i) sched l2 hp] at h
      injection h with h
      subst h
      have hpr : (r.row_id == some i) = true := by rw [hr]; exact hp
      refine ⟨r, ?_, hu⟩
      rw [@List.find?_cons_of_pos Scheduler (fun x => x.row_id == some i) r l2 hpr]
    · rw [@List.find?_cons_of_neg Scheduler (fun x => x.row_id == some i) sched l2 hp] at h
      have hpr : ¬ (r.row_id == some i) = true := by rw [hr]; exact hp
      refine ⟨schF, ?_, rfl⟩
      rw [@List.find?_cons_of_neg Scheduler (fun x => x.row_id == some i) r l2 hpr]
      exact h

/-- Assigning a process through the in-memory store preserves existing
assignments and referenced scheduler urls, and keeps the registry
well-formed. -/
theorem assignTo_preserves (s : MemState) (hwf : WFreg s) (sch : Scheduler)
    (hmem : sch ∈ s.schedulers) (pid' : String) :
    Preserves s (assignTo memStore s sch pid').2 ∧
    WFreg (assignTo memStore s sch pid').2 := by
  obtain ⟨hids, hndid, hndurl⟩ := hwf
  obtain ⟨hsome, hlt⟩ := hids sch hmem
  obtain ⟨rid, hrid⟩ := Option.isSome_iff_exists.mp hsome
  have hany : s.schedulers.any (fun x => x.row_id == some rid) = true :=
    List.any_eq_true.mpr ⟨sch, hmem, by simp [hrid]⟩
  obtain ⟨l1, l2, heq, hrepl, -⟩ :=
    replaceSched_split rid { sch with process_count := sch.process_count + 1 } sch
      s.schedulers hndid hmem hrid
  rw [hrid] at hrepl
  have hstate : (assignTo memStore s sch pid').2 =
      { s with
        schedulers := l1 ++ { sch with process_count := sch.process_count + 1 } :: l2,
        process_schedulers := s.process_schedulers ++
          [{ row_id := some s.next_ps_id, process_id := pid', scheduler_row_id := rid }],
        next_ps_id := s.next_ps_id + 1 } := by
    simp only [assignTo, memStore, hrid, hany, hrepl]
    simp
  rw [hstate]
  refine ⟨⟨?_, ?_⟩, ?_, ?_, ?_⟩
  · intro X r h
    rw [get_ps_ok] at h ⊢
    exact find?_append_left _ _ _ _ h
  · intro i schF h
    rw [get_sched_ok] at h
    rw [heq] at h
    obtain ⟨schF', hfind, hu⟩ := find?_row_id_stable l1 l2 sch
      { sch with process_count := sch.process_count + 1 } rfl rfl i schF h
    refine ⟨schF', ?_, hu⟩
    rw [get_sched_ok]
    exact hfind
  · intro x hx
    rw [heq] at hids
    rcases List.mem_append.mp hx with hx1 | hx2
    · exact hids x (List.mem_append.mpr (Or.inl hx1))
    · rcases List.mem_cons.mp hx2 with rfl | hx3
      · exact hids sch (List.mem_append.mpr (Or.inr (List.mem_cons_self _ _)))
      · exact hids x (List.mem_append.mpr (Or.inr (List.mem_cons_of_mem _ hx3)))
  · rw [heq] at hndid
    have hmapeq :
        (l1 ++ { sch with process_count := sch.process_count + 1 } :: l2).map
            (fun x => x.row_id) =
        (l1 ++ sch :: l2).map (fun x => x.row_id) := by
      simp
    rw [hmapeq]
    exact hndid
  · rw [heq] at hndurl
    have hmapeq :
        (l1 ++ { sch with process_count := sch.process_count + 1 } :: l2).map
            (fun x => x.url) =
        (l1 ++ sch :: l2).map (fun x => x.url) := by
      simp
    rw [hmapeq]
    exact hndurl

/-- The "Process" selection branch preserves existing assignments and
referenced scheduler urls, and keeps the registry well-formed. -/
theorem processBranch_preserves (s : MemState) (hwf : WFreg s)
    (oa pid' : String) :
    Preserves s (processBranch memStore s oa pid').2 ∧
    WFreg (processBranch memStore s oa pid').2 := by
  cases haff : findAffinity oa
      (s.schedulers.filter fun sch => sch.no_route.getD false == false) with
  | some sch =>
    have hmem : sch ∈ s.schedulers :=
      List.mem_of_mem_filter (List.mem_of_find?_eq_some haff)
    have hbr : processBranch memStore s oa pid' = assignTo memStore s sch pid' := by
      simp only [processBranch, memStore, haff]
    rw [hbr]
    exact assignTo_preserves s hwf sch hmem pid'
  | none =>
    cases hmin : minByLoad
        ((s.schedulers.filter fun sch => sch.no_route.getD false == false).filter
          fun sch => sch.wallets_only.getD false == false) with
    | some m =>
      have hmem : m ∈ s.schedulers :=
        List.mem_of_mem_filter (List.mem_of_mem_filter (minByLoad_mem _ _ hmin))
      have hbr : processBranch memStore s oa pid' = assignTo memStore s m pid' := by
        simp only [processBranch, memStore, haff, hmin]
      rw [hbr]
      exact assignTo_preserves s hwf m hmem pid'
    | none =>
      have hbr : (processBranch memStore s oa pid').2 = s := by
        simp only [processBranch, memStore, haff, hmin]
      rw [hbr]
      exact ⟨Preserves_refl s, hwf⟩

/-- The work-unit-id route never changes the store state. -/
theorem redirect_process_id_state {σ : Type} (ds : DataStore σ) (mode : String)
    (pid : Option String) (s : σ) :
    (redirect_process_id ds mode pid s).2 = s := by
  unfold redirect_process_id
  split
  · rfl
  · cases pid with
    | none => rfl
    | some p =>
      simp only
      cases lookupUrl ds s p <;> rfl

/-- The tx-id route never changes the store state. -/
theorem redirect_tx_id_state {σ : Type} (ds : DataStore σ) (mode tx : String)
    (pid : Option String) (s : σ) :
    (redirect_tx_id ds mode tx pid s).2 = s := by
  unfold redirect_tx_id
  split
  · rfl
  · simp only
    split
    · rfl
    · cases lookupUrl ds s _ <;> rfl

/-- The payload route preserves existing assignments and referenced scheduler
urls, and keeps the registry well-formed. -/
theorem redirect_data_item_preserves (ext : Externals) (mode : String)
    (input : List Nat) (pid a : Option String) (s : MemState)
    (hwf : WFreg s) :
    Preserves s (redirect_data_item memStore ext mode input pid a s).2 ∧
    WFreg (redirect_data_item memStore ext mode input pid a s).2 := by
  unfold redirect_data_item
  split
  · exact ⟨Preserves_refl s, hwf⟩
  split
  · exact ⟨Preserves_refl s, hwf⟩
  split
  · split
    · split <;> exact ⟨Preserves_refl s, hwf⟩
    · exact ⟨Preserves_refl s, hwf⟩
  · split
    · exact ⟨Preserves_refl s, hwf⟩
    split
    · exact ⟨Preserves_refl s, hwf⟩
    split
    · exact ⟨Preserves_refl s, hwf⟩
    split
    · exact processBranch_preserves s hwf _ _
    split
    · split
      · split <;> exact ⟨Preserves_refl s, hwf⟩
      · exact ⟨Preserves_refl s, hwf⟩
    · exact ⟨Preserves_refl s, hwf⟩

/-- A bootstrap step preserves existing assignments and referenced scheduler
urls. -/
theorem bootStep_preserves (e : SchedulerEntry) (s : MemState)
    (hwf : WFreg s) : Preserves s (bootStep e s) := by
  obtain ⟨hids, hndid, hndurl⟩ := hwf
  cases hfind : s.schedulers.find? (fun sch => sch.url == e.url) with
  | some sched =>
    obtain ⟨hsome, -⟩ := hids sched (List.mem_of_find?_eq_some hfind)
    obtain ⟨i, hi⟩ := Option.isSome_iff_exists.mp hsome
    obtain ⟨l1, l2, heq, hrepl, -⟩ :=
      replaceSched_split i (setFlags e sched) sched s.schedulers hndid
        (List.mem_of_find?_eq_some hfind) hi
    have hstate : bootStep e s =
        { s with schedulers := l1 ++ setFlags e sched :: l2 } := by
      simp only [bootStep, hfind, hi, Option.getD_some]
      rw [hrepl]
    rw [hstate]
    constructor
    · intro X r h
      rw [get_ps_ok] at h ⊢
      exact h
    · intro i' schF h
      rw [get_sched_ok] at h
      rw [heq] at h
      obtain ⟨schF', hfind', hu⟩ :=
        find?_row_id_stable l1 l2 sched (setFlags e sched) rfl rfl i' schF h
      refine ⟨schF', ?_, hu⟩
      rw [get_sched_ok]
      exact hfind'
  | none =>
    have hstate : bootStep e s =
        { s with
          schedulers := s.schedulers ++ [{ freshFor e with row_id := some s.next_sched_id }],
          next_sched_id := s.next_sched_id + 1 } := by
      simp only [bootStep, hfind]
    rw [hstate]
    constructor
    · intro X r h
      rw [get_ps_ok] at h ⊢
      exact h
    · intro i' schF h
      rw [get_sched_ok] at h
      refine ⟨schF, ?_, rfl⟩
      rw [get_sched_ok]
      exact find?_append_left _ _ _ _ h

/-- A bootstrap run preserves existing assignments and referenced scheduler
urls. -/
theorem bootRun_preserves (entries : List SchedulerEntry) (s : MemState)
    (hwf : WFreg s) : Preserves s (bootRun entries s) := by
  induction entries generalizing s with
  | nil => exact Preserves_refl s
  | cons e rest ih =>
    exact Preserves_trans (bootStep_preserves e s hwf)
      (ih (bootStep e s) (bootStep_WF e s hwf))

/-- Any single engine operation preserves existing assignments and referenced
scheduler urls, and keeps the registry well-formed. -/
theorem engineStep_preserves (s s' : MemState) (hwf : WFreg s)
    (hstep : EngineStep s s') : Preserves s s' ∧ WFreg s' := by
  cases hstep with
  | boot entries res _ _ h =>
    rw [init_schedulers_memStore entries s hwf] at h
    injection h with h1 h2
    subst h2
    exact ⟨bootRun_preserves entries s hwf, bootRun_WF entries s hwf⟩
  | byPid mode pid res _ _ h =>
    have h2 : s' = s := by
      rw [← redirect_process_id_state memStore mode pid s, h]
    subst h2
    exact ⟨Preserves_refl _, hwf⟩
  | byTx mode tx pid res _ _ h =>
    have h2 : s' = s := by
      rw [← redirect_tx_id_state memStore mode tx pid s, h]
    subst h2
    exact ⟨Preserves_refl _, hwf⟩
  | byItem ext mode input pid a res _ _ h =>
    have h2 : s' = (redirect_data_item memStore ext mode input pid a s).2 := by
      rw [h]
    subst h2
    exact redirect_data_item_preserves ext mode input pid a s hwf

/-- Any chain of engine operations preserves existing assignments and
referenced scheduler urls, and keeps the registry well-formed. -/
theorem engineChain_preserves (s s' : MemState) (hwf : WFreg s)
    (hchain : Relation.ReflTransGen EngineStep s s') :
    Preserves s s' ∧ WFreg s' := by
  induction hchain with
  | refl => exact ⟨Preserves_refl s, hwf⟩
  | tail hab hbc ih =>
    obtain ⟨hp, hw⟩ := ih
    obtain ⟨hp', hw'⟩ := engineStep_preserves _ _ hw hbc
    exact ⟨Preserves_trans hp hp', hw'⟩

/-- C2: sticky routing. From a well-formed registry in which identifier X has
an assignment record referencing a scheduler, after any chain of engine
operations (bootstrap runs and all three redirect calls, with any arguments)
the assignment lookup still returns the very same record — no operation
modifies or deletes it — the referenced scheduler still resolves with the
same url, and all three entry points resolve X to that url. -/
theorem sticky_routing (s s' : MemState) (X : String) (r : ProcessScheduler)
    (sch : Scheduler) (hwf : WFreg s)
    (hr : memStore.get_process_scheduler s X = .ok r)
    (hsch : memStore.get_scheduler s r.scheduler_row_id = .ok sch)
    (hchain : Relation.ReflTransGen EngineStep s s')
    (pid : Option String) (ext : Externals) (input : List Nat) (a : String) :
    memStore.get_process_scheduler s' X = .ok r ∧
    ∃ sch', memStore.get_scheduler s' r.scheduler_row_id = .ok sch' ∧
      sch'.url = sch.url ∧
      redirect_process_id memStore "router" (some X) s' = (.ok (some sch'.url), s') ∧
      redirect_tx_id memStore "router" X pid s' = (.ok (some sch'.url), s') ∧
      redirect_data_item memStore ext "router" input (some X) (some a) s' =
        (.ok (some sch'.url), s') := by
  obtain ⟨⟨hps, hsc⟩, hwf'⟩ := engineChain_preserves s s' hwf hchain
  have hr' := hps X r hr
  obtain ⟨sch', hsch', hurl⟩ := hsc r.scheduler_row_id sch hsch
  refine ⟨hr', sch', hsch', hurl, ?_, ?_, ?_⟩
  · simp [redirect_process_id, lookupUrl, hr', hsch']
  · simp [redirect_tx_id, lookupUrl, hr', hsch']
  · simp [redirect_data_item, hr', hsch']

/-- Witness for C2: after an engine operation that routes a second process to
the scheduler, "px" still resolves to the same record and url. -/
theorem sticky_routing_witness :
    memStore.get_process_scheduler sStickyAfter "px" =
      .ok { row_id := some 1, process_id := "px", scheduler_row_id := 1 } ∧
    redirect_process_id memStore "router" (some "px") sStickyAfter =
      (.ok (some "https://st"), sStickyAfter) := by
  have h := sticky_routing sSticky sStickyAfter "px"
    { row_id := some 1, process_id := "px", scheduler_row_id := 1 } schedS
    (by simp [WFreg, sSticky, schedS]) rfl rfl
    (Relation.ReflTransGen.single
      (EngineStep.byItem extSticky "router" [] none none
        (.ok (some "https://st")) sSticky sStickyAfter rfl))
    none extSticky [] "a"
  obtain ⟨h1, sch', hsch', hurl, h2, -, -⟩ := h
  refine ⟨h1, ?_⟩
  rw [h2, hurl]
  rfl

/-- C1: in the "Process" branch with no affinity match, the route assigns to
`minByLoad` of the candidate pool left after dropping `no_route` and
`wallets_only` schedulers, failing with the no-scheduler error on an empty
pool; the scheduler `minByLoad` picks is least-loaded, and every scheduler
before it in registry order is strictly more loaded — on every tie the first
minimum in registry order wins; concretely, with three eligible schedulers of
loads [3, 1, 1] the payload route assigns to the second scheduler — the first
of the two with load 1 — and records the assignment to it. -/
theorem process_least_load_first_min {σ : Type} (ds : DataStore σ) (s : σ)
    (oa pid : String) (all : List Scheduler)
    (hall : ds.get_all_schedulers s = .ok all)
    (haff : findAffinity oa (all.filter (fun sch => sch.no_route.getD false == false)) = none) :
    (processBranch ds s oa pid =
      match minByLoad ((all.filter (fun sch => sch.no_route.getD false == false)).filter
          (fun sch => sch.wallets_only.getD false == false)) with
      | some m => assignTo ds s m pid
      | none => (.error "Could not find a scheduler to assign", s)) ∧
    (∀ l m, minByLoad l = some m → isFirstMin m l) ∧
    redirect_data_item memStore extProc "router" [] none none s311 =
      (.ok (some "https://s2"), s311assigned) := by
  refine ⟨?_, fun l m h => minByLoad_isFirstMin l m h, rfl⟩
  simp only [processBranch, hall, haff]

/-- Witness for C1: the [3, 1, 1] scenario routes to the second scheduler, and
that scheduler is the first minimum of the registry. -/
theorem process_least_load_first_min_witness :
    (redirect_data_item memStore extProc "router" [] none none s311).1 =
      .ok (some "https://s2") ∧
    isFirstMin schedB [schedA, schedB, schedC] := by
  have h := process_least_load_first_min memStore s311 "ADDR" "proc1"
    [schedA, schedB, schedC] rfl rfl
  exact ⟨congrArg Prod.fst h.2.2, h.2.1 [schedA, schedB, schedC] schedB rfl⟩

/-- C3: in the "Process" branch, when the affinity scan finds a scheduler —
necessarily one not marked `no_route`, whose comma-split, trimmed wallet list
contains the owner address derived by base64url-decoding the owner, hashing
with SHA-256 and base64url-encoding, and the first such scheduler in registry
order — the route assigns to it regardless of load: its `process_count` is
incremented and persisted through `update_scheduler`, an assignment record
binding the payload's id to its store id is appended, and its url is
returned. -/
theorem process_affinity_precedence (ext : Externals) (input : List Nat)
    (s : MemState) (item : DataItem) (tg : Tag) (ob : List Nat)
    (sch : Scheduler) (rid : Int)
    (hparse : ext.parse_data_item input = .ok item)
    (htag : item.tags.find? (fun tag => tag.name == "Type" || tag.name == "type") = some tg)
    (htype : tg.value = "Process")
    (hdec : ext.b64decode item.owner = some ob)
    (haff : findAffinity (ext.b64encode (hash ext ob))
      (s.schedulers.filter (fun x => x.no_route.getD false == false)) = some sch)
    (hrid : sch.row_id = some rid) :
    walletMatch (ext.b64encode (hash ext ob)) sch = true ∧
    (∃ l1 l2, s.schedulers.filter (fun x => x.no_route.getD false == false) =
        l1 ++ sch :: l2 ∧
      ∀ y ∈ l1, walletMatch (ext.b64encode (hash ext ob)) y = false) ∧
    redirect_data_item memStore ext "router" input none none s =
      (.ok (some sch.url),
       { s with
         schedulers :=
           replaceSched rid { sch with process_count := sch.process_count + 1 } s.schedulers,
         process_schedulers := s.process_schedulers ++
           [{ row_id := some s.next_ps_id, process_id := item.id, scheduler_row_id := rid }],
         next_ps_id := s.next_ps_id + 1 }) := by
  have hmem : sch ∈ s.schedulers :=
    List.mem_of_mem_filter (List.mem_of_find?_eq_some haff)
  have hany : s.schedulers.any (fun x => x.row_id == some rid) = true :=
    List.any_eq_true.mpr ⟨sch, hmem, by simp [hrid]⟩
  refine ⟨List.find?_some haff, ?_, ?_⟩
  · obtain ⟨l1, l2, heq, -, hbefore⟩ := find?_split _ _ _ haff
    exact ⟨l1, l2, heq, hbefore⟩
  · simp only [redirect_data_item, processBranch, assignTo, memStore, hparse, htag,
      hdec, htype, haff, hrid, hany]
    simp

/-- Witness for C3: the owner whose address is listed by the load-7 scheduler
is routed there although a load-0 scheduler exists. -/
theorem process_affinity_precedence_witness :
    walletMatch "AFF" schedQ = true ∧
    redirect_data_item memStore extAff "router" [] none none sPQ =
      (.ok (some "https://q"), sPQafter) := by
  have h := process_affinity_precedence extAff [] sPQ itemAff
    { name := "Type", value := "Process" } [1] schedQ 2 rfl rfl rfl rfl rfl rfl
  exact ⟨h.1, h.2.2.trans rfl⟩

/-- C4: in the "Process" branch with no affinity match, whatever scheduler the
least-load fallback selects comes from the pool from which every
`wallets_only` scheduler has been dropped — so a `wallets_only` scheduler
without an owner match is never selected, whatever the loads are — and when
that pool is empty the route fails with the no-scheduler-available error,
leaving the state unchanged. -/
theorem process_wallets_only_excluded {σ : Type} (ds : DataStore σ) (s : σ)
    (oa pid : String) (all : List Scheduler)
    (hall : ds.get_all_schedulers s = .ok all)
    (haff : findAffinity oa (all.filter (fun sch => sch.no_route.getD false == false)) = none) :
    (∀ m, minByLoad ((all.filter (fun sch => sch.no_route.getD false == false)).filter
        (fun sch => sch.wallets_only.getD false == false)) = some m →
      m.wallets_only.getD false = false ∧
      processBranch ds s oa pid = assignTo ds s m pid) ∧
    ((all.filter (fun sch => sch.no_route.getD false == false)).filter
        (fun sch => sch.wallets_only.getD false == false) = [] →
      processBranch ds s oa pid = (.error "Could not find a scheduler to assign", s)) := by
  constructor
  · intro m hmin
    constructor
    · have hm := List.of_mem_filter (minByLoad_mem _ _ hmin)
      simpa using hm
    · simp only [processBranch, hall, haff, hmin]
  · intro hpool
    simp only [processBranch, hall, haff, hpool]
    simp [minByLoad]

/-- Witness for C4: with loads [0 (wallets_only), 5] the fallback assigns to
the load-5 scheduler; with only the `wallets_only` scheduler present the
route fails with the no-scheduler error. -/
theorem process_wallets_only_excluded_witness :
    schedX.wallets_only.getD false = false ∧
    processBranch memStore sW "A" "p2" = (.ok (some "https://x"), sWafter) ∧
    processBranch memStore sOnlyW "A" "p2" =
      (.error "Could not find a scheduler to assign", sOnlyW) := by
  have h := process_wallets_only_excluded memStore sW "A" "p2" [schedW, schedX] rfl rfl
  have h2 := process_wallets_only_excluded memStore sOnlyW "A" "p2" [schedW] rfl rfl
  exact ⟨(h.1 schedX rfl).1, ((h.1 schedX rfl).2).trans rfl, h2.2 rfl⟩

/-- C10: in the "Process" branch, when the selected scheduler — found either
by the affinity scan or by the least-load fallback — carries no store id and
the store's update succeeds, the route returns the recoverable missing-id
error, and the state it leaves behind is exactly the post-update state `s1`:
the incremented `process_count` has already been persisted, and no assignment
record was saved (the route returns before `save_process_scheduler`). -/
theorem missing_id_persisted_update {σ : Type} (ds : DataStore σ)
    (ext : Externals) (input : List Nat) (s s1 : σ) (item : DataItem)
    (tg : Tag) (ob : List Nat) (sch : Scheduler) (all : List Scheduler)
    (hparse : ext.parse_data_item input = .ok item)
    (htag : item.tags.find? (fun tag => tag.name == "Type" || tag.name == "type") = some tg)
    (htype : tg.value = "Process")
    (hdec : ext.b64decode item.owner = some ob)
    (hall : ds.get_all_schedulers s = .ok all)
    (hnone : sch.row_id = none)
    (hupd : ds.update_scheduler s
      { sch with process_count := sch.process_count + 1 } = .ok s1) :
    (findAffinity (ext.b64encode (hash ext ob))
        (all.filter (fun x => x.no_route.getD false == false)) = some sch →
      redirect_data_item ds ext "router" input none none s =
        (.error "Missing id on scheduler", s1)) ∧
    (findAffinity (ext.b64encode (hash ext ob))
        (all.filter (fun x => x.no_route.getD false == false)) = none →
      minByLoad ((all.filter (fun x => x.no_route.getD false == false)).filter
        (fun x => x.wallets_only.getD false == false)) = some sch →
      redirect_data_item ds ext "router" input none none s =
        (.error "Missing id on scheduler", s1)) := by
  rw [hnone] at hupd
  constructor
  · intro haff
    simp only [redirect_data_item, processBranch, assignTo, hparse, htag, hdec,
      htype, hall, haff, hnone, hupd]
    simp
  · intro haff hmin
    simp only [redirect_data_item, processBranch, assignTo, hparse, htag, hdec,
      htype, hall, haff, hmin, hnone, hupd]
    simp

/-- Witness for C10: the id-less scheduler is selected by the fallback, the
route fails with the missing-id error, and the store state differs from the
initial one — the persisted increment — while the assignment table is
untouched. -/
theorem missing_id_persisted_update_witness :
    redirect_data_item permStore extN "router" [] none none sN =
      (.error "Missing id on scheduler", sN1) ∧
    sN1 ≠ sN ∧ sN1.process_schedulers = sN.process_schedulers := by
  have h := missing_id_persisted_update permStore extN [] sN sN1
    { id := "p3", target := "", owner := "ow",
      tags := [{ name := "Type", value := "Process" }] }
    { name := "Type", value := "Process" } [1] schedN [schedN]
    rfl rfl rfl rfl rfl rfl rfl
  exact ⟨h.2 rfl rfl, by decide, rfl⟩

/-- C9 counterexample: a non-NotFound store error does drive control flow.
With a store failing with "store connection failure" (an `Other`, not a
`NotFound`), the tx-id route still takes its fallback and reports the
instructional message, the pin lookup reports its descriptive message, and
the Message lookup reports its not-found-style message — in all three lookups
the non-NotFound error is consumed instead of propagating opaquely (opaque
propagation through `storeErrStr` would have produced the store's own
message). -/
theorem store_error_matching_counterexample :
    redirect_tx_id badStore "router" "tx1" none () =
      (.error "Unable to locate process, if this is a message id query be sure to pass the process-id query parameter", ()) ∧
    redirect_data_item badStore extDefault "router" [] (some "p1") (some "a1") () =
      (.error "Unable to locate scheduler for process-id", ()) ∧
    redirect_data_item badStore extMsg "router" [] none none () =
      (.error "Unable to locate scheduler for message target", ()) ∧
    storeErrStr (.Other "store connection failure") = "store connection failure" ∧
    ("Unable to locate scheduler for process-id" : String) ≠ "store connection failure" := by
  exact ⟨rfl, rfl, rfl, rfl, by decide⟩

/-- C9 amended: only the bootstrap existence check distinguishes `NotFound` —
record creation happens exactly on `NotFound`, and a non-NotFound
existence-check failure propagates the store's message opaquely without
creating anything — while the redirect lookup sites that drive control flow
(the tx-id fallback, the pin lookup, the Message lookup) treat every store
error variant alike, converting it into the fallback or their descriptive
message. -/
theorem store_error_matching_amended {σ : Type} (ds : DataStore σ)
    (entry : SchedulerEntry) (s s1 : σ) (i : Int) (m tx pid a : String)
    (ext : Externals) (input : List Nat) (item : DataItem) (tg : Tag)
    (ob : List Nat) :
    (ds.get_scheduler_by_url s entry.url = .error (.Other m) →
      init_step ds entry s = (.error m, s)) ∧
    (ds.get_scheduler_by_url s entry.url = .error (.NotFound m) →
      ds.save_scheduler s (freshFor entry) = .ok (i, s1) →
      init_step ds entry s = reconcileFlags ds entry s1) ∧
    (∀ e, ds.get_process_scheduler s tx = .error e →
      redirect_tx_id ds "router" tx none s =
        (.error "Unable to locate process, if this is a message id query be sure to pass the process-id query parameter", s)) ∧
    (∀ e, ds.get_process_scheduler s pid = .error e →
      redirect_data_item ds ext "router" input (some pid) (some a) s =
        (.error "Unable to locate scheduler for process-id", s)) ∧
    (ext.parse_data_item input = .ok item →
      item.tags.find? (fun tag => tag.name == "Type" || tag.name == "type") = some tg →
      tg.value = "Message" →
      ext.b64decode item.owner = some ob →
      ∀ e, ds.get_process_scheduler s item.target = .error e →
      redirect_data_item ds ext "router" input none none s =
        (.error "Unable to locate scheduler for message target", s)) := by
  refine ⟨?_, ?_, ?_, ?_, ?_⟩
  · intro hurl
    simp only [init_step, reconcileFlags, hurl, storeErrStr]
  · intro hurl hsave
    simp only [init_step, hurl, hsave]
  · intro e he
    simp [redirect_tx_id, he]
  · intro e he
    simp [redirect_data_item, he]
  · intro hparse htag htype hdec e he
    have hne : tg.value ≠ "Process" := by
      rw [htype]
      decide
    simp only [redirect_data_item, hparse, htag, hdec, htype, he]
    simp

/-- Witness for the C9 amended claim: the failing store shows the opaque
propagation without creation and the error-insensitive fallbacks; the empty
in-memory store shows that `NotFound` triggers creation. -/
theorem store_error_matching_amended_witness :
    init_step badStore entryU () = (.error "store connection failure", ()) ∧
    init_step memStore entryU memState0 = reconcileFlags memStore entryU sUsaved ∧
    redirect_tx_id badStore "router" "tx1" none () =
      (.error "Unable to locate process, if this is a message id query be sure to pass the process-id query parameter", ()) ∧
    redirect_data_item badStore extMsg "router" [] none none () =
      (.error "Unable to locate scheduler for message target", ()) := by
  have h1 := store_error_matching_amended badStore entryU () () 0
    "store connection failure" "tx1" "p1" "a1" extMsg []
    { id := "m1", target := "pt", owner := "ow",
      tags := [{ name := "Type", value := "Message" }] }
    { name := "Type", value := "Message" } [1]
  have h2 := store_error_matching_amended memStore entryU memState0 sUsaved 1
    "scheduler not found" "tx" "p" "a" extMsg []
    { id := "m1", target := "pt", owner := "ow",
      tags := [{ name := "Type", value := "Message" }] }
    { name := "Type", value := "Message" } [1]
  exact ⟨h1.1 rfl, h2.2.1 rfl rfl,
    h1.2.2.1 (.Other "store connection failure") rfl,
    h1.2.2.2.2 rfl rfl rfl rfl (.Other "store connection failure") rfl⟩

/-- C7: whenever the configured mode is not "router", each of the three entry
points returns Ok(None) with the store state unchanged — and since the
equation holds for every store `ds` and every state `s`, the result depends on
neither, i.e. no store read or write takes place and no error is reported even
on otherwise-invalid inputs. -/
theorem non_router_mode_no_redirect {σ : Type} (ds : DataStore σ)
    (ext : Externals) (mode : String) (h : mode ≠ "router")
    (pid : Option String) (tx : String) (input : List Nat)
    (assign : Option String) (s : σ) :
    redirect_process_id ds mode pid s = (.ok none, s) ∧
    redirect_tx_id ds mode tx pid s = (.ok none, s) ∧
    redirect_data_item ds ext mode input pid assign s = (.ok none, s) := by
  refine ⟨?_, ?_, ?_⟩ <;>
    simp [redirect_process_id, redirect_tx_id, redirect_data_item, h]

/-- Witness for C7 at a concrete non-router mode and concrete inputs. -/
theorem non_router_mode_no_redirect_witness :
    redirect_process_id memStore "su" (some "p1") memState0 = (.ok none, memState0) ∧
    redirect_tx_id memStore "su" "t1" none memState0 = (.ok none, memState0) ∧
    redirect_data_item memStore extDefault "su" [0] (some "p1") none memState0 =
      (.ok none, memState0) :=
  non_router_mode_no_redirect memStore extDefault "su" (by decide)
    (some "p1") "t1" [0] none memState0

/-- C5: for the payload route in router mode, supplying exactly one of
process-id and assign fails with the mismatched-pin error and an unchanged
state; supplying both ignores the payload and the external parser entirely
(the result is the same for any payload bytes and any parser), performs only
the assignment lookup on the identifier — the descriptive pin failure when the
lookup errors, the referenced scheduler's url on success — and leaves the
state unchanged. -/
theorem pin_params_validation {σ : Type} (ds : DataStore σ)
    (ext ext2 : Externals) (input input2 : List Nat) (pid a : String) (s : σ) :
    redirect_data_item ds ext "router" input (some pid) none s =
      (.error "If sending assign or process-id, you must send both.", s) ∧
    redirect_data_item ds ext "router" input none (some a) s =
      (.error "If sending assign or process-id, you must send both.", s) ∧
    redirect_data_item ds ext "router" input (some pid) (some a) s =
      redirect_data_item ds ext2 "router" input2 (some pid) (some a) s ∧
    (∀ e, ds.get_process_scheduler s pid = .error e →
      redirect_data_item ds ext "router" input (some pid) (some a) s =
        (.error "Unable to locate scheduler for process-id", s)) ∧
    (∀ ps sch, ds.get_process_scheduler s pid = .ok ps →
      ds.get_scheduler s ps.scheduler_row_id = .ok sch →
      redirect_data_item ds ext "router" input (some pid) (some a) s =
        (.ok (some sch.url), s)) := by
  refine ⟨by simp [redirect_data_item], by simp [redirect_data_item], ?_, ?_, ?_⟩
  · simp [redirect_data_item]
  · intro e he
    simp [redirect_data_item, he]
  · intro ps sch hps hsch
    simp [redirect_data_item, hps, hsch]

/-- Witness for C5: on the empty store, pinning an unassigned identifier
fails with the descriptive pin error. -/
theorem pin_params_validation_witness :
    redirect_data_item memStore extDefault "router" [] (some "p1") (some "a1")
      memState0 = (.error "Unable to locate scheduler for process-id", memState0) :=
  (pin_params_validation memStore extDefault extDefault [] [] "p1" "a1"
    memState0).2.2.2.1 (.NotFound "process scheduler not found") rfl

/-- C8: in router mode, the tx-id route first tries the tx id as a process id;
when that lookup returns any error it falls back to the process-id parameter,
failing with the instructional MissingParameter message when the parameter is
absent; in either remaining case it behaves exactly as `redirect_process_id`
on the chosen identifier. -/
theorem tx_route_fallback {σ : Type} (ds : DataStore σ) (tx : String)
    (pid : Option String) (s : σ) :
    redirect_tx_id ds "router" tx pid s =
      (match ds.get_process_scheduler s tx with
       | .ok _ => redirect_process_id ds "router" (some tx) s
       | .error _ =>
         match pid with
         | some p => redirect_process_id ds "router" (some p) s
         | none => (.error "Unable to locate process, if this is a message id query be sure to pass the process-id query parameter", s)) := by
  cases hget : ds.get_process_scheduler s tx with
  | ok ps =>
    simp [redirect_tx_id, redirect_process_id, hget]
  | error e =>
    cases pid with
    | none => simp [redirect_tx_id, hget]
    | some p => simp [redirect_tx_id, redirect_process_id, hget]
